import Mathlib

/-!
Verification of the turkis monitor control plane against its source.

The definitions below are shallow embeddings of the Go source under
`src/`.  Each definition's doc comment names the Go function it embeds.
String values are Lean `String`s; Go maps are embedded either as
functions `String → Option _` (when only lookup/insert/delete matter)
or as association lists in iteration order (when the Go code ranges
over the map, whose iteration order is unspecified).
-/

namespace Turkis

/-! ## String helpers (embedding `strings.Contains`, `strings.HasPrefix`,
`strings.ReplaceAll` on the inputs the monitor uses) -/

/-- Embeds `strings.Contains(s, pat)` on char lists: `pat` occurs as a
contiguous substring of `l`. -/
def listContainsSub (l pat : List Char) : Bool :=
  if pat.isPrefixOf l then true
  else
    match l with
    | [] => false
    | _ :: t => listContainsSub t pat

/-- Embeds `strings.Contains` on strings. -/
def strContains (s pat : String) : Bool :=
  listContainsSub s.data pat.data

/-- Embeds `strings.HasPrefix`. -/
def strHasPrefix (s pre : String) : Bool :=
  pre.data.isPrefixOf s.data

/-- Embeds `strings.ReplaceAll(s, ".", "_")` as used by the HAProxy
config generator to sanitize host names; the pattern and replacement
are single characters, so replacement is a character map. -/
def sanitizeHost (s : String) : String :=
  ⟨s.data.map (fun c => if c = '.' then '_' else c)⟩

/-- Embeds Go's `<` on strings (byte-wise lexicographic on the UTF-8
encoding) on char lists.  UTF-8 byte order agrees with code-point
order, so comparing code points is the same relation. -/
def listLexLt : List Char → List Char → Bool
  | [], [] => false
  | [], _ :: _ => true
  | _ :: _, [] => false
  | a :: as, b :: bs =>
      if a.toNat < b.toNat then true
      else if b.toNat < a.toNat then false
      else listLexLt as bs

/-- Embeds Go's `<` on strings (used by the winner rule on
`deployment_id`s). -/
def goStringLt (a b : String) : Bool :=
  listLexLt a.data b.data

/-- Fuel-driven digit accumulator behind `natDigits` (the fuel `n + 1`
always suffices because `n / 10` shrinks on every step). -/
def natDigitsAux (fuel n : Nat) (acc : List Char) : List Char :=
  match fuel with
  | 0 => acc
  | fuel' + 1 =>
      if n < 10 then Nat.digitChar n :: acc
      else natDigitsAux fuel' (n / 10) (Nat.digitChar (n % 10) :: acc)

/-- Embeds the decimal digits of `fmt`'s `%d` rendering of a
non-negative integer, most significant first. -/
def natDigits (n : Nat) : List Char :=
  natDigitsAux (n + 1) n []

/-- Decimal rendering of a non-negative integer, as `fmt.Sprintf("%d", n)`
produces it. -/
def natToString (n : Nat) : String :=
  ⟨natDigits n⟩

/-! ## Data model: `config.Domain` and `config.ContainerLabels`
(src/internal/config/labels.go) -/

/-- Embeds `config.Domain`: a canonical host plus ordered aliases. -/
structure GoDomain where
  canonical : String
  aliases : List String
deriving Repr, DecidableEq

/-- Embeds `config.ContainerLabels` (the deployment descriptor parsed
from a container's labels). -/
structure ContainerLabels where
  appName : String
  deploymentID : String
  ignore : Bool
  healthCheckPath : String
  acmeEmail : String
  port : String
  domains : List GoDomain
deriving Repr, DecidableEq

/-! ## Deployment registry (src/internal/manager/deployments.go and
src/unnamed/part_008 `GetDeploymentsFromRunningContainers`) -/

/-- Embeds `manager.DeploymentInstance` / `haproxy.DeploymentInstance`:
the (ip, port) pair recorded for one running container. -/
structure DeploymentInstance where
  ip : String
  port : String
deriving Repr, DecidableEq

/-- Embeds `manager.Deployment` / `haproxy.Deployment`. -/
structure Deployment where
  labels : ContainerLabels
  instances : List DeploymentInstance
deriving Repr, DecidableEq

/-- The `deploymentsMap` of `CreateDeployments`, embedded as a map from
app name to deployment (a Go map keyed by `labels.AppName`). -/
def DeploymentsMap := String → Option Deployment

/-- Embeds the per-container body of the loop in
`manager.CreateDeployments` (src/internal/manager/deployments.go lines
57-70) = `monitor.GetDeploymentsFromRunningContainers`
(src/unnamed/part_008 lines 151-165): the winner rule applied to one
observed container whose labels parsed and whose IP was found. -/
def observeContainer (m : DeploymentsMap) (labels : ContainerLabels)
    (inst : DeploymentInstance) : DeploymentsMap :=
  match m labels.appName with
  | some deployment =>
      if deployment.labels.deploymentID = labels.deploymentID then
        fun a => if a = labels.appName then
          some { deployment with instances := deployment.instances ++ [inst] }
        else m a
      else if goStringLt deployment.labels.deploymentID labels.deploymentID then
        fun a => if a = labels.appName then
          some { labels := labels, instances := [inst] }
        else m a
      else m
  | none =>
      fun a => if a = labels.appName then
        some { labels := labels, instances := [inst] }
      else m a

/-- Embeds the whole fold of `CreateDeployments` over the observed
containers (each element is the parsed labels and instance of one
eligible running container, in list order). -/
def createDeployments (observed : List (ContainerLabels × DeploymentInstance)) :
    DeploymentsMap :=
  observed.foldl (fun m o => observeContainer m o.1 o.2) (fun _ => none)

/-! ## Label model (src/internal/config/labels.go)

A Go `map[string]string` is embedded as an association list in
iteration order: lookups (`labels[k]`) are order-independent on
duplicate-free lists, while `for key, value := range labels` visits the
pairs in the list's order.  Go's map iteration order is unspecified, so
properties of `ParseContainerLabels` that depend on the order in which
the domain loop visits keys only hold for the orders that realize
them. -/

/-- The label keys of src/internal/config/labels.go. -/
def LabelAppName : String := "turkis.appName"

/-- `turkis.deployment-id`. -/
def LabelDeploymentID : String := "turkis.deployment-id"

/-- `turkis.ignore`. -/
def LabelIgnore : String := "turkis.ignore"

/-- `turkis.health-check-path`. -/
def LabelHealthCheckPath : String := "turkis.health-check-path"

/-- `turkis.acme.email`. -/
def LabelACMEEmail : String := "turkis.acme.email"

/-- `turkis.port`. -/
def LabelPort : String := "turkis.port"

/-- Embeds `fmt.Sprintf(LabelDomainCanonical, i)` = `turkis.domain.<i>`. -/
def labelDomainCanonical (i : Nat) : String :=
  "turkis.domain." ++ natToString i

/-- Embeds `fmt.Sprintf(LabelDomainAlias, i, j)` =
`turkis.domain.<i>.alias.<j>`. -/
def labelDomainAlias (i j : Nat) : String :=
  "turkis.domain." ++ natToString i ++ ".alias." ++ natToString j

/-- Modelled from the spec: `config.DefaultContainerPort` in its string
form used by labels.go is not under src (only an integer draft of the
constant is); the spec says the `port` default is "a fixed
internal-port constant, e.g. 80". -/
def DefaultContainerPort : String := "80"

/-- Modelled from the spec: `config.DefaultHealthCheckPath` is not
under src; the spec says `health_check_path` defaults to `/`. -/
def DefaultHealthCheckPath : String := "/"

/-- Modelled from the spec: `helpers.IsValidEmail` is not under src;
the spec requires acme_email to be an RFC-5322-valid address.  Modelled
as: exactly one `@`, neither first nor last character. -/
def isValidEmail (s : String) : Bool :=
  s.data.count '@' = 1 && s.data.head? ≠ some '@' && s.data.getLast? ≠ some '@'

/-- Map lookup `labels[k]` on the association-list embedding of a Go
map (keys are distinct in a Go map, so the order is immaterial). -/
def lookupLabel (labels : List (String × String)) (k : String) : Option String :=
  match labels with
  | [] => none
  | (k2, v) :: t => if k2 = k then some v else lookupLabel t k

/-- Embeds `strconv.ParseBool`. -/
def goParseBool (s : String) : Option Bool :=
  if s = "1" ∨ s = "t" ∨ s = "T" ∨ s = "TRUE" ∨ s = "true" ∨ s = "True" then some true
  else if s = "0" ∨ s = "f" ∨ s = "F" ∨ s = "FALSE" ∨ s = "false" ∨ s = "False" then some false
  else none

/-- Embeds `strconv.FormatBool`. -/
def goFormatBool (b : Bool) : String :=
  if b then "true" else "false"

/-- Drops `pre` from the front of `l` when `pre` is a prefix (the
literal-matching part of `fmt.Sscanf`). -/
def listDropPrefix : List Char → List Char → Option (List Char)
  | l, [] => some l
  | [], _ :: _ => none
  | c :: t, p :: ps => if c = p then listDropPrefix t ps else none

/-- Embeds the `%d` verb of `fmt.Sscanf` on the label keys: reads a
non-empty run of decimal digits and returns its value and the rest.
(Go's `%d` would also accept a sign, which no label key contains.) -/
def scanNat (l : List Char) : Option (Nat × List Char) :=
  let digits := l.takeWhile (fun c => c.isDigit)
  match digits with
  | [] => none
  | _ => some (digits.foldl (fun n c => n * 10 + (c.toNat - 48)) 0,
               l.dropWhile (fun c => c.isDigit))

/-- Embeds `fmt.Sscanf(key, "turkis.domain.%d", &domainIdx)` (trailing
characters after the scanned verb are ignored by Sscanf). -/
def scanCanonicalKey (key : String) : Option Nat :=
  match listDropPrefix key.data ("turkis.domain.").data with
  | none => none
  | some rest => (scanNat rest).map Prod.fst

/-- Embeds `fmt.Sscanf(key, "turkis.domain.%d.alias.%d", ...)`. -/
def scanAliasKey (key : String) : Option (Nat × Nat) :=
  match listDropPrefix key.data ("turkis.domain.").data with
  | none => none
  | some rest =>
    match scanNat rest with
    | none => none
    | some (i, rest2) =>
      match listDropPrefix rest2 (".alias.").data with
      | none => none
      | some rest3 => (scanNat rest3).map (fun p => (i, p.1))

/-- The `domainMap` of `ParseContainerLabels`, embedded as an
association list from index to domain in insertion order (the Go code
only ever reads it through `domainMap[idx]` and a final sorted-index
walk, both order-independent). -/
def findDomain (m : List (Nat × GoDomain)) (i : Nat) : Option GoDomain :=
  match m with
  | [] => none
  | (j, d) :: t => if j = i then some d else findDomain t i

/-- Writing through the `*Domain` pointer returned by
`getOrCreateDomain`: replaces the entry at `i`, or appends a fresh
one. -/
def setDomain (m : List (Nat × GoDomain)) (i : Nat) (d : GoDomain) :
    List (Nat × GoDomain) :=
  match m with
  | [] => [(i, d)]
  | (j, e) :: t => if j = i then (j, d) :: t else (j, e) :: setDomain t i d

/-- Embeds one iteration of the domain/alias loop of
`ParseContainerLabels` (src/internal/config/labels.go lines 73-95). -/
def processDomainLabel (m : List (Nat × GoDomain)) (key value : String) :
    List (Nat × GoDomain) :=
  if strHasPrefix key "turkis.domain." then
    if strContains key ".alias." then
      match scanAliasKey key with
      | none => m
      | some (i, _) =>
          let d := (findDomain m i).getD ⟨"", []⟩
          setDomain m i { d with aliases := d.aliases ++ [value] }
    else
      match scanCanonicalKey key with
      | none => m
      | some i =>
          let d := (findDomain m i).getD ⟨"", []⟩
          setDomain m i { d with canonical := value }
  else m

/-- Insertion into a sorted list (ascending), for `sort.Ints`. -/
def insertSorted (i : Nat) : List Nat → List Nat
  | [] => [i]
  | j :: t => if i ≤ j then i :: j :: t else j :: insertSorted i t

/-- Embeds `sort.Ints` on the collected index list. -/
def sortNats (l : List Nat) : List Nat :=
  l.foldr insertSorted []

/-- Embeds the tail of `ParseContainerLabels` (lines 97-105): collect
the indices of `domainMap`, sort them ascending, and read the domains
off in that order. -/
def collectDomains (m : List (Nat × GoDomain)) : List GoDomain :=
  (sortNats (m.map Prod.fst)).filterMap (fun i => findDomain m i)

/-- Embeds `(*ContainerLabels).IsValid` (src/internal/config/labels.go
lines 152-176); `none` means valid, `some e` is the error message. -/
def isValidLabels (cl : ContainerLabels) : Option String :=
  if cl.appName = "" then some "appName is required"
  else if cl.deploymentID = "" then some "deploymentID is required"
  else if cl.acmeEmail = "" then some "ACME email is required"
  else if ¬ isValidEmail cl.acmeEmail then some "ACME email is not valid"
  else if cl.port = "" then some "port is required"
  else if cl.domains = [] then some "at least one domain is required"
  else none

/-- Embeds `config.ParseContainerLabels` (src/internal/config/labels.go
lines 40-113) on the association-list embedding of the label map. -/
def parseContainerLabels (labels : List (String × String)) :
    Except String ContainerLabels :=
  let ignoreRes : Except String Bool :=
    match lookupLabel labels LabelIgnore with
    | some v =>
        match goParseBool v with
        | none => .error ("invalid value for " ++ LabelIgnore)
        | some b => .ok b
    | none => .ok false
  match ignoreRes with
  | .error e => .error e
  | .ok ign =>
      let cl : ContainerLabels :=
        { appName := (lookupLabel labels LabelAppName).getD ""
          deploymentID := (lookupLabel labels LabelDeploymentID).getD ""
          ignore := ign
          healthCheckPath := (lookupLabel labels LabelHealthCheckPath).getD DefaultHealthCheckPath
          acmeEmail := (lookupLabel labels LabelACMEEmail).getD ""
          port := (lookupLabel labels LabelPort).getD DefaultContainerPort
          domains := collectDomains
            (labels.foldl (fun m kv => processDomainLabel m kv.1 kv.2) []) }
      match isValidLabels cl with
      | some e => .error e
      | none => .ok cl

/-- Embeds `(*ContainerLabels).ToLabels` (src/internal/config/labels.go
lines 125-149).  The Go function builds a map; this list records the
insertion order of the Go code, and an arbitrary map iteration order is
a permutation of it. -/
def toLabels (cl : ContainerLabels) : List (String × String) :=
  [(LabelAppName, cl.appName),
   (LabelDeploymentID, cl.deploymentID),
   (LabelIgnore, goFormatBool cl.ignore),
   (LabelHealthCheckPath, cl.healthCheckPath),
   (LabelPort, cl.port),
   (LabelACMEEmail, cl.acmeEmail)]
  ++ (cl.domains.enum.flatMap (fun p =>
        (labelDomainCanonical p.1, p.2.canonical)
          :: p.2.aliases.enum.map (fun q => (labelDomainAlias p.1 q.1, q.2))))

/-! ## Container source error handling (src/cmd/monitor/main.go,
`listenForDockerEvents`, lines 481-492) -/

/-- What the source goroutine does after receiving an error on the
engine's error channel. -/
inductive SourceAction where
  | retryAfterBackoff
  | terminate
deriving DecidableEq, Repr

/-- The back-off before resubscribing, `time.Sleep(5 * time.Second)`. -/
def eventsErrorBackoffSeconds : Nat := 5

/-- Embeds the error branch of `listenForDockerEvents`
(src/cmd/monitor/main.go lines 481-492).  The error is forwarded to
`errorsChan` first in either case; then the goroutine sleeps 5 s and
resubscribes when the error is not `io.EOF` and its message does not
contain "connection refused", and otherwise returns (the source
terminates).  `isEOF` embeds the identity comparison `err != io.EOF`. -/
def classifyEventsError (isEOF : Bool) (msg : String) : SourceAction :=
  if !isEOF && !(strContains msg "connection refused") then
    .retryAfterBackoff
  else
    .terminate

/-! ## HAProxy certificate install protocol
(src/internal/monitor/certificates/haproxy.go).

The file contains three rewrites of `(*HAProxyNotifier).NotifyCertChange`.
Both are embedded as pure protocol functions over the sequence of
socket responses, assuming the PEM file exists and every dial, write
and read succeeds (each command is written on its own fresh connection
with a 5 s deadline in all rewrites).  Each model returns the list of
commands written to the socket, in order, together with the result. -/

/-- The result of a `NotifyCertChange` run (server responses are only
ever tested for the substring "Unknown command"; there is no
command-failed outcome in the source). -/
inductive NotifyResult where
  | ok
  | unsupported
deriving DecidableEq, Repr

/-- The four ordered commands of the install protocol, as built in
haproxy.go: `show ssl cert`, `new ssl cert <path>`,
`set ssl cert <domain> <path>`, `commit ssl cert`. -/
def certInstallCommands (domain pemPath : String) : List String :=
  ["show ssl cert",
   "new ssl cert " ++ pemPath,
   "set ssl cert " ++ domain ++ " " ++ pemPath,
   "commit ssl cert"]

/-- Embeds the first rewrite of `NotifyCertChange` (haproxy.go lines
27-148): it opens conn1..conn4 and writes all four protocol commands
unconditionally, reading responses `r1`..`r4`; only then does it range
over a map of the new/set/commit responses looking for
"Unknown command" (`r1`, the `show ssl cert` listing, is never
checked).  If none matched, it opens conn5 and additionally writes
`set ssl cert-list 1 <path>`, checking response `r5` the same way.
Which offending command the Go error names depends on map iteration
order; whether an error is returned does not, which is all the model
records. -/
def notifyCertChangeAll (domain pemPath : String)
    (_r1 r2 r3 r4 r5 : String) : List String × NotifyResult :=
  let sent4 := certInstallCommands domain pemPath
  if strContains r2 "Unknown command" || strContains r3 "Unknown command"
      || strContains r4 "Unknown command" then
    (sent4, .unsupported)
  else
    let sent5 := sent4 ++ ["set ssl cert-list 1 " ++ pemPath]
    if strContains r5 "Unknown command" then (sent5, .unsupported)
    else (sent5, .ok)

/-- The command loop of the last rewrite of `NotifyCertChange`
(haproxy.go lines 319-355): on each iteration the command is written
and its response read on a fresh connection; a response containing
"Unknown command" returns the unsupported error before any later
command is sent.  Responses are consumed positionally from `rs`. -/
def notifySeqGo (sent : List String) : List String → List String →
    List String × NotifyResult
  | [], _ => (sent, .ok)
  | cmd :: cmds, r :: rs =>
      if strContains r "Unknown command" then (sent ++ [cmd], .unsupported)
      else notifySeqGo (sent ++ [cmd]) cmds rs
  | _ :: _, [] => (sent, .ok)

/-- Embeds the last rewrite of `NotifyCertChange` (haproxy.go lines
304-358) on a response sequence covering every command (a missing
response would be a read error, which the claims do not concern). -/
def notifyCertChangeSeq (domain pemPath : String) (rs : List String) :
    List String × NotifyResult :=
  notifySeqGo [] (certInstallCommands domain pemPath) rs

/-! ## Certificate manager (src/internal/monitor/certificates/manager.go) -/

/-- Embeds `certificates.Domain` (manager.go lines 43-46). -/
structure MDomain where
  name : String
  aliases : List String
deriving DecidableEq, Repr

/-- The certificate-relevant state of a `certificates.Manager`: the
`domains` map guarded by `domainMutex`, and the file names present in
`config.CertDir` (the manager's only persistent state the claims
concern). -/
structure ManagerState where
  domains : String → Option MDomain
  certFiles : List String

/-- `_, err := os.Stat(certFile); os.IsNotExist(err)` for
`<name>.crt` under `CertDir`. -/
def crtExists (st : ManagerState) (name : String) : Bool :=
  st.certFiles.contains (name ++ ".crt")

/-- Embeds `(*Manager).AddDomain` (manager.go lines 336-356): an
already-managed name returns immediately (no map update, no obtain
goroutine); otherwise the domain is stored and a goroutine is started
that obtains a certificate iff `<name>.crt` does not exist.  The
boolean records whether that goroutine will call `obtainCertificate`. -/
def addDomain (st : ManagerState) (d : MDomain) : ManagerState × Bool :=
  match st.domains d.name with
  | some _ => (st, false)
  | none =>
      ({ st with domains := fun n => if n = d.name then some d else st.domains n },
       !(crtExists st d.name))

/-- Embeds `(*Manager).RemoveDomain` (manager.go lines 359-365):
`delete(m.domains, domainName)`; the function performs no file-system
operation ("we don't delete the certificate files as they might be
needed again"). -/
def removeDomain (st : ManagerState) (domainName : String) : ManagerState :=
  { st with domains := fun n => if n = domainName then none else st.domains n }

/-- The interval of the renewal ticker,
`time.NewTicker(24 * time.Hour)` (manager.go line 191), in seconds. -/
def renewalTickerSeconds : Nat := 24 * 3600

/-- The renewal threshold `30*24*time.Hour` (manager.go line 249), in
seconds. -/
def renewThresholdSeconds : Int := 30 * 24 * 3600

/-- What `checkRenewals` observes for one managed domain: whether
`<name>.crt` exists, whether `tls.LoadX509KeyPair` succeeded, whether
`len(cert.Certificate) > 0`, whether `x509.ParseCertificate` succeeded,
and the leaf's NotAfter instant (seconds). -/
structure CertObservation where
  crtPresent : Bool
  keyPairOk : Bool
  chainNonEmpty : Bool
  parseOk : Bool
  notAfter : Int
deriving DecidableEq, Repr

/-- Embeds the per-domain body of `(*Manager).checkRenewals`
(manager.go lines 216-253): `true` iff the pass calls
`obtainCertificate` for the domain (directly when no `.crt` exists,
or through `renewCertificate`, which just calls `obtainCertificate`,
when `time.Until(NotAfter) < 30*24*time.Hour`). -/
def checkRenewalDecision (now : Int) (s : CertObservation) : Bool :=
  if !s.crtPresent then true
  else if !s.keyPairOk then false
  else if !s.chainNonEmpty then false
  else if !s.parseOk then false
  else decide (s.notAfter - now < renewThresholdSeconds)

/-- Embeds a whole `checkRenewals` pass over the snapshot of the
`domains` map (manager.go lines 208-254): the domains for which an
obtain is triggered. -/
def checkRenewals (now : Int) (snapshot : List (MDomain × CertObservation)) :
    List MDomain :=
  (snapshot.filter (fun p => checkRenewalDecision now p.2)).map Prod.fst

/-! ## Domain provider (src/internal/monitor/domain_provider.go) and
HAProxy config generation (src/internal/monitor/haproxy/config.go) -/

/-- Embeds `monitor.Domain` (src/internal/monitor/domain.go). -/
structure MonDomain where
  name : String
  aliases : List String
deriving DecidableEq, Repr

/-- Embeds `(*DomainProviderImpl).GetAllDomains`
(src/internal/monitor/domain_provider.go lines 23-40): ranging over the
`containers` map (given here in iteration order, each element being one
container's `Domains` slice), every domain overwrites the map entry
under its name — "we overwrite duplicates".  The result is the final
`domains` map. -/
def getAllDomains (containers : List (List MonDomain)) :
    String → Option (List String) :=
  containers.foldl
    (fun acc doms =>
      doms.foldl
        (fun acc2 dom => fun n => if n = dom.name then some dom.aliases else acc2 n)
        acc)
    (fun _ => none)

/-- Embeds `strings.Join(elems, sep)` (used by `CreateConfig` for the
`use_backend` condition, `strings.Join(canonicalACLs, " or ")`). -/
def goJoin (sep : String) : List String → String
  | [] => ""
  | [x] => x
  | x :: xs => x ++ sep ++ goJoin sep xs

/-- `frontend https-in` header of `haproxy.CreateConfig`
(src/internal/monitor/haproxy/config.go line 26). -/
def httpsFrontendHeader : String :=
  "frontend https-in\n\tbind *:443 ssl crt /usr/local/etc/haproxy/certs/\n"

/-- `frontend http-in` header (config.go line 28). -/
def httpFrontendHeader : String :=
  "frontend http-in\n\tbind *:80\n"

/-- The alias rule text appended to a frontend for one alias
(config.go lines 55-61; the HTTPS and HTTP additions are identical). -/
def aliasRuleText (aclName canonical al : String) : String :=
  "\tacl " ++ aclName ++ " hdr(host) -i " ++ al ++ "\n"
    ++ "\thttp-request redirect code 301 location https://" ++ canonical
    ++ "%[req.uri] if " ++ aclName ++ "\n"

/-- One domain iteration of the frontend loop of `CreateConfig`
(config.go lines 35-65), acting on the accumulated
(httpsFrontend, httpFrontend, canonicalACLs). -/
def configDomainStep (backendName : String)
    (a : String × String × List String) (domain : GoDomain) :
    String × String × List String :=
  if domain.canonical = "" then a
  else
    let canonicalACLName :=
      backendName ++ "_" ++ sanitizeHost domain.canonical ++ "_canonical"
    let https1 := a.1 ++ "\tacl " ++ canonicalACLName ++ " hdr(host) -i "
      ++ domain.canonical ++ "\n"
    let http1 := a.2.1 ++ "\tacl " ++ canonicalACLName ++ " hdr(host) -i "
      ++ domain.canonical ++ "\n"
      ++ "\thttp-request redirect code 301 location https://" ++ domain.canonical
      ++ "%[req.uri] if " ++ canonicalACLName ++ "\n"
    let inner := domain.aliases.foldl
      (fun (b : String × String) al =>
        if al = "" then b
        else
          let aliasACLName := backendName ++ "_" ++ sanitizeHost al ++ "_alias"
          (b.1 ++ aliasRuleText aliasACLName domain.canonical al,
           b.2 ++ aliasRuleText aliasACLName domain.canonical al))
      (https1, http1)
    (inner.1, inner.2, a.2.2 ++ [canonicalACLName])

/-- One deployment iteration of the frontend loop of `CreateConfig`
(config.go lines 30-71): after the domain loop, a `use_backend` line is
emitted to the HTTPS frontend when at least one canonical ACL was
collected. -/
def configDeploymentStep (acc : String × String) (d : Deployment) :
    String × String :=
  let backendName := d.labels.appName
  let res := d.labels.domains.foldl (configDomainStep backendName)
    (acc.1, acc.2, ([] : List String))
  if res.2.2 = [] then (res.1, res.2.1)
  else
    (res.1 ++ "\tuse_backend " ++ backendName ++ " if "
       ++ goJoin " or " res.2.2 ++ "\n",
     res.2.1)

/-- The backend sections of `CreateConfig` (config.go lines 74-81);
server indexes are 1-based (`app%d` with `i+1`). -/
def backendsSection (deployments : List Deployment) : String :=
  deployments.foldl
    (fun acc d =>
      d.instances.enum.foldl
        (fun a p =>
          a ++ "\tserver app" ++ natToString (p.1 + 1) ++ " " ++ p.2.ip ++ ":"
            ++ p.2.port ++ " check\n")
        (acc ++ "\nbackend " ++ d.labels.appName ++ "\n"))
    ""

/-- The fixed ACME-challenge frontend snippet (config.go lines 84-87). -/
def frontendACMEChallenge : String :=
  "\n    acl is_acme_challenge path_beg /.well-known/acme-challenge/\n    use_backend acme_challenge if is_acme_challenge\n\t"

/-- The fixed ACME-challenge backend (config.go lines 88-97). -/
def backendACMEChallenge : String :=
  "\nbackend acme_challenge\n    mode http\n    # Forward to the monitor container which will handle the ACME challenge\n    http-request set-header X-Forwarded-For %[src]\n    http-request set-header X-Forwarded-Proto http\n    http-request set-header X-Forwarded-Port %[dst_port]\n    http-request set-header Host %[req.hdr(host)]\n    server monitor monitor:8080\n\t"

/-- The fixed default backend (config.go lines 98-101). -/
def backendDefault : String :=
  "\nbackend default_backend\n    http-request deny deny_status 404\n\t"

/-- Embeds `haproxy.CreateConfig`
(src/internal/monitor/haproxy/config.go lines 24-106). -/
def createConfig (deployments : List Deployment) : String :=
  let fronts := deployments.foldl configDeploymentStep
    (httpsFrontendHeader, httpFrontendHeader)
  fronts.1 ++ "\n" ++ fronts.2 ++ "\n" ++ frontendACMEChallenge ++ "\n"
    ++ backendsSection deployments ++ "\n" ++ backendACMEChallenge ++ "\n"
    ++ backendDefault

/-! ## Helper lemmas -/

theorem listLexLt_irrefl (l : List Char) : listLexLt l l = false := by
  induction l with
  | nil => rfl
  | cons a t ih => simp [listLexLt, ih]

theorem listLexLt_asymm {a b : List Char} (h : listLexLt a b = true) :
    listLexLt b a = false := by
  induction a generalizing b with
  | nil =>
      cases b with
      | nil => simp [listLexLt] at h
      | cons y ys => simp [listLexLt]
  | cons x xs ih =>
      cases b with
      | nil => simp [listLexLt] at h
      | cons y ys =>
          by_cases hxy : x.toNat < y.toNat
          · have : ¬ y.toNat < x.toNat := by omega
            simp [listLexLt, this, Nat.ne_of_lt hxy, show ¬ x.toNat < y.toNat → False from fun hh => hh hxy]
            omega
          · by_cases hyx : y.toNat < x.toNat
            · simp [listLexLt, hxy, hyx] at h
            · have h' : listLexLt xs ys = true := by
                simpa [listLexLt, hxy, hyx] using h
              simp [listLexLt, hxy, hyx, ih h']

theorem goStringLt_irrefl (s : String) : goStringLt s s = false :=
  listLexLt_irrefl s.data

theorem goStringLt_asymm {a b : String} (h : goStringLt a b = true) :
    goStringLt b a = false :=
  listLexLt_asymm h

theorem goStringLt_ne {a b : String} (h : goStringLt a b = true) : a ≠ b := by
  intro he
  rw [he, goStringLt_irrefl] at h
  exact Bool.false_ne_true h

theorem natDigitsAux_acc (fuel : Nat) : ∀ (n : Nat) (acc : List Char),
    natDigitsAux fuel n acc = natDigitsAux fuel n [] ++ acc := by
  induction fuel with
  | zero => intro n acc; rfl
  | succ fuel ih =>
      intro n acc
      by_cases h : n < 10
      · simp [natDigitsAux, h]
      · simp only [natDigitsAux, if_neg h]
        rw [ih (n / 10) (Nat.digitChar (n % 10) :: acc),
            ih (n / 10) [Nat.digitChar (n % 10)]]
        simp

theorem natDigitsAux_fuel : ∀ (n f1 f2 : Nat), n < f1 → n < f2 →
    natDigitsAux f1 n [] = natDigitsAux f2 n [] := by
  intro n
  induction n using Nat.strong_induction_on with
  | _ n ih =>
      intro f1 f2 h1 h2
      cases f1 with
      | zero => omega
      | succ f1p =>
        cases f2 with
        | zero => omega
        | succ f2p =>
          by_cases h : n < 10
          · simp [natDigitsAux, h]
          · simp only [natDigitsAux, if_neg h]
            rw [natDigitsAux_acc f1p, natDigitsAux_acc f2p]
            have hd : n / 10 < n := Nat.div_lt_self (by omega) (by omega)
            rw [ih (n / 10) hd f1p f2p (by omega) (by omega)]

theorem natDigits_eq (n : Nat) :
    natDigits n = if n < 10 then [Nat.digitChar n]
      else natDigits (n / 10) ++ [Nat.digitChar (n % 10)] := by
  by_cases h : n < 10
  · simp [natDigits, natDigitsAux, h]
  · have l1 : natDigits n = natDigitsAux n (n / 10) [Nat.digitChar (n % 10)] := by
      simp only [natDigits, natDigitsAux, if_neg h]
    rw [l1, natDigitsAux_acc n, if_neg h]
    congr 1
    exact natDigitsAux_fuel (n / 10) n (n / 10 + 1)
      (Nat.div_lt_self (by omega) (by omega)) (by omega)

theorem digitChar_isDigit (d : Nat) (h : d < 10) :
    (Nat.digitChar d).isDigit = true := by
  interval_cases d <;> decide

theorem digitChar_toNat (d : Nat) (h : d < 10) :
    (Nat.digitChar d).toNat - 48 = d := by
  interval_cases d <;> decide

theorem natDigits_all_digit (n : Nat) : ∀ c ∈ natDigits n, c.isDigit = true := by
  induction n using Nat.strong_induction_on with
  | _ n ih =>
      rw [natDigits_eq]
      by_cases h : n < 10
      · simp [h]
        exact digitChar_isDigit n h
      · simp only [if_neg h]
        intro c hc
        rcases List.mem_append.mp hc with hc1 | hc2
        · exact ih (n / 10) (Nat.div_lt_self (by omega) (by omega)) c hc1
        · simp at hc2
          rw [hc2]
          exact digitChar_isDigit (n % 10) (by omega)

theorem natDigits_ne_nil (n : Nat) : natDigits n ≠ [] := by
  rw [natDigits_eq]
  by_cases h : n < 10 <;> simp [h]

theorem natDigits_foldl (n : Nat) :
    (natDigits n).foldl (fun a c => a * 10 + (c.toNat - 48)) 0 = n := by
  induction n using Nat.strong_induction_on with
  | _ n ih =>
      rw [natDigits_eq]
      by_cases h : n < 10
      · simp [h, List.foldl]
        exact digitChar_toNat n h
      · simp only [if_neg h, List.foldl_append, List.foldl]
        rw [ih (n / 10) (Nat.div_lt_self (by omega) (by omega))]
        rw [digitChar_toNat (n % 10) (by omega)]
        omega

theorem takeWhile_all_append (p : Char → Bool) :
    ∀ (l r : List Char), (∀ c ∈ l, p c = true) →
      (∀ c, r.head? = some c → p c = false) →
      (l ++ r).takeWhile p = l ∧ (l ++ r).dropWhile p = r := by
  intro l
  induction l with
  | nil =>
      intro r _ hr
      cases r with
      | nil => simp
      | cons c t =>
          have := hr c rfl
          simp [List.takeWhile, List.dropWhile, this]
  | cons a l ih =>
      intro r hl hr
      have ha : p a = true := hl a (by simp)
      have := ih r (fun c hc => hl c (by simp [hc])) hr
      simp [List.takeWhile, List.dropWhile, ha, this.1, this.2]

theorem scanNat_digits_append (n : Nat) (rest : List Char)
    (hr : ∀ c, rest.head? = some c → c.isDigit = false) :
    scanNat (natDigits n ++ rest) = some (n, rest) := by
  have h := takeWhile_all_append (fun c => c.isDigit) (natDigits n) rest
    (natDigits_all_digit n) hr
  unfold scanNat
  rw [h.1, h.2]
  have hne := natDigits_ne_nil n
  cases hd : natDigits n with
  | nil => exact absurd hd hne
  | cons c t =>
      simp only []
      rw [← hd, natDigits_foldl n]

theorem scanNat_natDigits (n : Nat) : scanNat (natDigits n) = some (n, []) := by
  have := scanNat_digits_append n [] (by intro c hc; cases hc)
  simpa using this

theorem listDropPrefix_append (pre : List Char) :
    ∀ rest, listDropPrefix (pre ++ rest) pre = some rest := by
  induction pre with
  | nil => intro rest; simp [listDropPrefix]
  | cons c t ih => intro rest; simp [listDropPrefix, ih]

theorem scanCanonicalKey_label (i : Nat) :
    scanCanonicalKey (labelDomainCanonical i) = some i := by
  unfold scanCanonicalKey labelDomainCanonical
  rw [String.data_append]
  show (match listDropPrefix ("turkis.domain.".data ++ (natToString i).data)
      "turkis.domain.".data with
    | none => none
    | some rest => (scanNat rest).map Prod.fst) = some i
  rw [listDropPrefix_append]
  show (scanNat (natDigits i)).map Prod.fst = some i
  rw [scanNat_natDigits]
  rfl

theorem scanAliasKey_label (i j : Nat) :
    scanAliasKey (labelDomainAlias i j) = some (i, j) := by
  unfold scanAliasKey labelDomainAlias
  rw [String.data_append, String.data_append, String.data_append]
  rw [List.append_assoc, List.append_assoc]
  rw [listDropPrefix_append]
  have hni : (natToString i).data = natDigits i := rfl
  have hnj : (natToString j).data = natDigits j := rfl
  rw [hni, hnj]
  show (match scanNat (natDigits i ++ (".alias.".data ++ natDigits j)) with
    | none => none
    | some (a, rest2) =>
      match listDropPrefix rest2 ".alias.".data with
      | none => none
      | some rest3 => (scanNat rest3).map (fun p => (a, p.1))) = some (i, j)
  rw [scanNat_digits_append i (".alias.".data ++ natDigits j)
    (by intro c hc; simp at hc; rw [← hc]; rfl)]
  show (match listDropPrefix (".alias.".data ++ natDigits j) ".alias.".data with
    | none => none
    | some rest3 => (scanNat rest3).map (fun p => (i, p.1))) = some (i, j)
  rw [listDropPrefix_append]
  show (scanNat (natDigits j)).map (fun p => (i, p.1)) = some (i, j)
  rw [scanNat_natDigits]
  rfl

theorem strHasPrefix_append (p s : String) : strHasPrefix (p ++ s) p = true := by
  unfold strHasPrefix
  rw [String.data_append, List.isPrefixOf_iff_prefix]
  exact List.prefix_append p.data s.data

theorem listContainsSub_iff (pat : List Char) :
    ∀ l, listContainsSub l pat = true ↔ pat <:+: l := by
  intro l
  induction l with
  | nil =>
      unfold listContainsSub
      constructor
      · intro h
        split at h
        · rename_i hp
          rw [List.isPrefixOf_iff_prefix] at hp
          exact hp.isInfix
        · exact absurd h (by simp)
      · intro h
        have : pat = [] := List.eq_nil_of_infix_nil h
        simp [this, List.isPrefixOf_iff_prefix]
  | cons c t ih =>
      unfold listContainsSub
      constructor
      · intro h
        split at h
        · rename_i hp
          rw [List.isPrefixOf_iff_prefix] at hp
          exact hp.isInfix
        · exact ((List.infix_cons_iff).mpr (Or.inr (ih.mp h)))
      · intro h
        rcases (List.infix_cons_iff).mp h with hp | hi
        · simp [List.isPrefixOf_iff_prefix, hp]
        · split
          · rfl
          · exact ih.mpr hi

theorem strContains_canonical_alias (i : Nat) :
    strContains (labelDomainCanonical i) ".alias." = false := by
  by_contra hcon
  have h : strContains (labelDomainCanonical i) ".alias." = true := by
    revert hcon
    cases strContains (labelDomainCanonical i) ".alias." <;> simp
  rw [strContains, listContainsSub_iff] at h
  have hl : 'l' ∈ (".alias." : String).data := by decide
  have hmem := h.subset hl
  rw [show (labelDomainCanonical i).data
      = "turkis.domain.".data ++ natDigits i from by
        unfold labelDomainCanonical
        rw [String.data_append]
        rfl] at hmem
  rcases List.mem_append.mp hmem with h1 | h2
  · exact absurd h1 (by decide)
  · have := natDigits_all_digit i 'l' h2
    exact absurd this (by decide)

theorem strContains_alias_alias (i j : Nat) :
    strContains (labelDomainAlias i j) ".alias." = true := by
  rw [strContains, listContainsSub_iff]
  have : (labelDomainAlias i j).data
      = ("turkis.domain.".data ++ natDigits i) ++
          ((".alias." : String).data ++ natDigits j) := by
    unfold labelDomainAlias
    rw [String.data_append, String.data_append, String.data_append]
    simp [List.append_assoc]
    rfl
  rw [this]
  exact ⟨"turkis.domain.".data ++ natDigits i, natDigits j, by simp⟩

theorem strHasPrefix_alias (i j : Nat) :
    strHasPrefix (labelDomainAlias i j) "turkis.domain." = true := by
  unfold strHasPrefix
  rw [List.isPrefixOf_iff_prefix]
  rw [show (labelDomainAlias i j).data
      = "turkis.domain.".data ++
          (natDigits i ++ ((".alias." : String).data ++ natDigits j)) from by
        unfold labelDomainAlias
        rw [String.data_append, String.data_append, String.data_append]
        simp [List.append_assoc]
        rfl]
  exact List.prefix_append _ _

theorem processDomainLabel_canonical (m : List (Nat × GoDomain)) (i : Nat) (v : String) :
    processDomainLabel m (labelDomainCanonical i) v
      = setDomain m i { (findDomain m i).getD ⟨"", []⟩ with canonical := v } := by
  unfold processDomainLabel
  rw [show strHasPrefix (labelDomainCanonical i) "turkis.domain." = true from
    strHasPrefix_append "turkis.domain." (natToString i)]
  rw [strContains_canonical_alias i, scanCanonicalKey_label i]
  simp

theorem processDomainLabel_aliasKey (m : List (Nat × GoDomain)) (i j : Nat) (v : String) :
    processDomainLabel m (labelDomainAlias i j) v
      = setDomain m i
          { (findDomain m i).getD ⟨"", []⟩ with
            aliases := ((findDomain m i).getD ⟨"", []⟩).aliases ++ [v] } := by
  unfold processDomainLabel
  rw [strHasPrefix_alias i j, strContains_alias_alias i j, scanAliasKey_label i j]
  simp

theorem findDomain_append_none (i : Nat) (d : GoDomain) :
    ∀ m, findDomain m i = none → findDomain (m ++ [(i, d)]) i = some d := by
  intro m
  induction m with
  | nil => intro _; simp [findDomain]
  | cons p t ih =>
      intro h
      unfold findDomain at h ⊢
      split at h
      · exact absurd h (by simp)
      · rename_i hne
        simp only [List.cons_append]
        rw [if_neg hne] at *
        exact ih h

theorem setDomain_absent (i : Nat) (d : GoDomain) :
    ∀ m, findDomain m i = none → setDomain m i d = m ++ [(i, d)] := by
  intro m
  induction m with
  | nil => intro _; rfl
  | cons p t ih =>
      intro h
      unfold findDomain at h
      unfold setDomain
      split at h
      · exact absurd h (by simp)
      · rename_i hne
        simp only [List.cons_append]
        rw [if_neg hne]
        rw [ih h]

theorem setDomain_append_update (i : Nat) (d e : GoDomain) :
    ∀ m, findDomain m i = none →
      setDomain (m ++ [(i, e)]) i d = m ++ [(i, d)] := by
  intro m
  induction m with
  | nil => intro _; simp [setDomain]
  | cons p t ih =>
      intro h
      unfold findDomain at h
      split at h
      · exact absurd h (by simp)
      · rename_i hne
        simp only [List.cons_append]
        unfold setDomain
        rw [if_neg hne]
        rw [ih h]

theorem findDomain_none_of_bound (s : Nat) :
    ∀ m : List (Nat × GoDomain), (∀ p ∈ m, p.1 < s) → findDomain m s = none := by
  intro m
  induction m with
  | nil => intro _; rfl
  | cons p t ih =>
      intro h
      unfold findDomain
      have hp := h p (by simp)
      rw [if_neg (by omega)]
      exact ih (fun q hq => h q (by simp [hq]))

theorem aliasEntries_fold (i : Nat) :
    ∀ (as : List String) (t : Nat) (m : List (Nat × GoDomain))
      (c : String) (acc : List String), findDomain m i = none →
      List.foldl (fun mm kv => processDomainLabel mm kv.1 kv.2)
          (m ++ [(i, ⟨c, acc⟩)])
          ((List.enumFrom t as).map (fun q => (labelDomainAlias i q.1, q.2)))
        = m ++ [(i, ⟨c, acc ++ as⟩)] := by
  intro as
  induction as with
  | nil => intro t m c acc _; simp
  | cons a tl ih =>
      intro t m c acc hm
      simp only [List.enumFrom, List.map, List.foldl]
      rw [processDomainLabel_aliasKey]
      rw [findDomain_append_none i ⟨c, acc⟩ m hm]
      show List.foldl (fun mm kv => processDomainLabel mm kv.1 kv.2)
          (setDomain (m ++ [(i, ⟨c, acc⟩)]) i ⟨c, acc ++ [a]⟩)
          ((List.enumFrom (t + 1) tl).map (fun q => (labelDomainAlias i q.1, q.2)))
        = m ++ [(i, ⟨c, acc ++ a :: tl⟩)]
      rw [setDomain_append_update i ⟨c, acc ++ [a]⟩ ⟨c, acc⟩ m hm]
      rw [ih (t + 1) m c (acc ++ [a]) hm]
      simp

theorem domainBlock_fold (i : Nat) (d : GoDomain) (m : List (Nat × GoDomain))
    (hm : findDomain m i = none) :
    List.foldl (fun mm kv => processDomainLabel mm kv.1 kv.2) m
        ((labelDomainCanonical i, d.canonical)
          :: d.aliases.enum.map (fun q => (labelDomainAlias i q.1, q.2)))
      = m ++ [(i, d)] := by
  simp only [List.foldl]
  rw [processDomainLabel_canonical, hm]
  show List.foldl (fun mm kv => processDomainLabel mm kv.1 kv.2)
      (setDomain m i ⟨d.canonical, []⟩)
      ((List.enumFrom 0 d.aliases).map (fun q => (labelDomainAlias i q.1, q.2)))
    = m ++ [(i, d)]
  rw [setDomain_absent i ⟨d.canonical, []⟩ m hm]
  rw [aliasEntries_fold i d.aliases 0 m d.canonical [] hm]
  cases d
  simp

theorem domainBlocks_fold :
    ∀ (doms : List GoDomain) (s : Nat) (m : List (Nat × GoDomain)),
      (∀ p ∈ m, p.1 < s) →
      List.foldl (fun mm kv => processDomainLabel mm kv.1 kv.2) m
          ((List.enumFrom s doms).flatMap (fun p =>
            (labelDomainCanonical p.1, p.2.canonical)
              :: p.2.aliases.enum.map (fun q => (labelDomainAlias p.1 q.1, q.2))))
        = m ++ List.enumFrom s doms := by
  intro doms
  induction doms with
  | nil => intro s m _; simp
  | cons d ds ih =>
      intro s m hm
      simp only [List.enumFrom, List.flatMap_cons]
      rw [List.foldl_append]
      rw [domainBlock_fold s d m (findDomain_none_of_bound s m hm)]
      rw [ih (s + 1) (m ++ [(s, d)]) ?bound]
      · simp
      case bound =>
        intro p hp
        rcases List.mem_append.mp hp with h1 | h2
        · exact Nat.lt_succ_of_lt (hm p h1)
        · simp at h2
          subst h2
          simp

theorem findDomain_cons_ne (j : Nat) (d : GoDomain) (t : List (Nat × GoDomain))
    (i : Nat) (h : ¬ j = i) : findDomain ((j, d) :: t) i = findDomain t i := by
  show (if j = i then some d else findDomain t i) = findDomain t i
  rw [if_neg h]

theorem mem_enumFrom_fst_ge :
    ∀ (l : List GoDomain) (n i : Nat),
      i ∈ (List.enumFrom n l).map Prod.fst → n ≤ i := by
  intro l
  induction l with
  | nil => intro n i h; simp at h
  | cons d ds ih =>
      intro n i h
      simp only [List.enumFrom, List.map] at h
      rcases List.mem_cons.mp h with h1 | h2
      · omega
      · have := ih (n + 1) i h2
        omega

theorem enumFrom_fst_sorted :
    ∀ (l : List GoDomain) (n : Nat),
      ((List.enumFrom n l).map Prod.fst).Sorted (· ≤ ·) := by
  intro l
  induction l with
  | nil => intro n; simp
  | cons d ds ih =>
      intro n
      simp only [List.enumFrom, List.map]
      rw [List.sorted_cons]
      exact ⟨fun b hb => le_trans (by omega) (mem_enumFrom_fst_ge ds (n + 1) b hb),
             ih (n + 1)⟩

theorem sortNats_of_sorted : ∀ l : List Nat, l.Sorted (· ≤ ·) → sortNats l = l := by
  intro l
  induction l with
  | nil => intro _; rfl
  | cons a t ih =>
      intro h
      rw [List.sorted_cons] at h
      show insertSorted a (sortNats t) = a :: t
      rw [ih h.2]
      cases t with
      | nil => rfl
      | cons b t2 =>
          unfold insertSorted
          rw [if_pos (h.1 b (by simp))]

theorem collect_enumFrom :
    ∀ (doms : List GoDomain) (s : Nat),
      collectDomains (List.enumFrom s doms) = doms := by
  have main : ∀ (doms : List GoDomain) (s : Nat),
      ((List.enumFrom s doms).map Prod.fst).filterMap
        (fun i => findDomain (List.enumFrom s doms) i) = doms := by
    intro doms
    induction doms with
    | nil => intro s; rfl
    | cons d ds ih =>
        intro s
        simp only [List.enumFrom, List.map, List.filterMap_cons]
        rw [show findDomain ((s, d) :: List.enumFrom (s + 1) ds) s = some d from by
          unfold findDomain
          rw [if_pos rfl]]
        show d :: List.filterMap
            (fun i => findDomain ((s, d) :: List.enumFrom (s + 1) ds) i)
            ((List.enumFrom (s + 1) ds).map Prod.fst) = d :: ds
        congr 1
        have h2 : List.filterMap
            (fun i => findDomain ((s, d) :: List.enumFrom (s + 1) ds) i)
            ((List.enumFrom (s + 1) ds).map Prod.fst)
          = List.filterMap (fun i => findDomain (List.enumFrom (s + 1) ds) i)
            ((List.enumFrom (s + 1) ds).map Prod.fst) := by
          apply List.filterMap_congr
          intro i hi
          have hge := mem_enumFrom_fst_ge ds (s + 1) i hi
          exact findDomain_cons_ne s d _ i (by omega)
        rw [h2, ih (s + 1)]
  intro doms s
  unfold collectDomains
  rw [sortNats_of_sorted _ (enumFrom_fst_sorted doms s)]
  exact main doms s

theorem strContains_iff (s pat : String) :
    strContains s pat = true ↔ pat.data <:+: s.data :=
  listContainsSub_iff pat.data s.data

theorem strContains_append_right (a b pat : String)
    (h : strContains b pat = true) : strContains (a ++ b) pat = true := by
  rw [strContains_iff] at h ⊢
  rw [String.data_append]
  exact h.trans (List.suffix_append a.data b.data).isInfix

theorem strContains_append_left (a b pat : String)
    (h : strContains a pat = true) : strContains (a ++ b) pat = true := by
  rw [strContains_iff] at h ⊢
  rw [String.data_append]
  exact h.trans (List.prefix_append a.data b.data).isInfix

theorem strContains_suffix_self (a pat : String) :
    strContains (a ++ pat) pat = true := by
  rw [strContains_iff, String.data_append]
  exact (List.suffix_append a.data pat.data).isInfix

theorem strContains_congr (s t pat : String) (hst : s = t)
    (h : strContains t pat = true) : strContains s pat = true := hst ▸ h

/-! ## C1: winner rule of the deployment registry -/

/-- C1: when `CreateDeployments` builds deployments from observed
containers, at most one entry per app name is kept (the map is keyed by
app name); an arriving instance with the stored entry's deployment id
is appended to its instance list, one with a lexicographically greater
deployment id replaces the entry with a fresh single-instance entry,
one with a strictly smaller deployment id leaves the map unchanged, and
when no entry exists a new entry with this descriptor and instance is
created.  Entries of other app names are never touched. -/
theorem c1_winner_rule (m : DeploymentsMap) (l : ContainerLabels)
    (inst : DeploymentInstance) :
    (m l.appName = none →
       observeContainer m l inst l.appName = some ⟨l, [inst]⟩) ∧
    (∀ dep, m l.appName = some dep →
       (dep.labels.deploymentID = l.deploymentID →
          observeContainer m l inst l.appName
            = some ⟨dep.labels, dep.instances ++ [inst]⟩) ∧
       (goStringLt dep.labels.deploymentID l.deploymentID = true →
          observeContainer m l inst l.appName = some ⟨l, [inst]⟩) ∧
       (goStringLt l.deploymentID dep.labels.deploymentID = true →
          observeContainer m l inst = m)) ∧
    (∀ b, b ≠ l.appName → observeContainer m l inst b = m b) := by
  refine ⟨?_, ?_, ?_⟩
  · intro h
    unfold observeContainer
    rw [h]
    simp
  · intro dep h
    refine ⟨?_, ?_, ?_⟩
    · intro he
      unfold observeContainer
      rw [h]
      simp [he]
    · intro hlt
      have hne : dep.labels.deploymentID ≠ l.deploymentID := goStringLt_ne hlt
      unfold observeContainer
      rw [h]
      simp [hne, hlt]
    · intro hlt
      have hne : dep.labels.deploymentID ≠ l.deploymentID :=
        fun he => (goStringLt_ne hlt) he.symm
      have hnlt : goStringLt dep.labels.deploymentID l.deploymentID = false :=
        goStringLt_asymm hlt
      unfold observeContainer
      rw [h]
      simp [hne, hnlt]
  · intro b hb
    unfold observeContainer
    cases hm : m l.appName with
    | none => simp [hm, hb]
    | some dep =>
        dsimp only
        split_ifs <;> simp [hb]

/-- Witness for C1: a concrete replacement — app `A` holds deployment
id `20240101000000` with one instance, and an instance of the newer
`20240102000000` displaces it. -/
theorem c1_winner_rule_witness :
    observeContainer
      (fun a => if a = "A" then
          some ⟨⟨"A", "20240101000000", false, "/", "a@b.c", "80",
                 [⟨"foo.example.com", []⟩]⟩, [⟨"10.0.0.2", "80"⟩]⟩
        else none)
      ⟨"A", "20240102000000", false, "/", "a@b.c", "80",
        [⟨"foo.example.com", []⟩]⟩
      ⟨"10.0.0.3", "80"⟩ "A"
      = some ⟨⟨"A", "20240102000000", false, "/", "a@b.c", "80",
               [⟨"foo.example.com", []⟩]⟩, [⟨"10.0.0.3", "80"⟩]⟩ :=
  ((c1_winner_rule
      (fun a => if a = "A" then
          some ⟨⟨"A", "20240101000000", false, "/", "a@b.c", "80",
                 [⟨"foo.example.com", []⟩]⟩, [⟨"10.0.0.2", "80"⟩]⟩
        else none)
      ⟨"A", "20240102000000", false, "/", "a@b.c", "80",
        [⟨"foo.example.com", []⟩]⟩
      ⟨"10.0.0.3", "80"⟩).2.1
    ⟨⟨"A", "20240101000000", false, "/", "a@b.c", "80",
       [⟨"foo.example.com", []⟩]⟩, [⟨"10.0.0.2", "80"⟩]⟩
    (by rfl)).2.1 (by decide)

/-! ## C3: container-source error handling -/

/-- C3 counterexample: the claim says the source backs off and
resubscribes on EOF or "connection refused" and terminates on any other
error; the code does the opposite.  At `io.EOF` the source terminates,
and at an unrelated engine error it retries after the 5 s backoff. -/
theorem c3_counterexample :
    classifyEventsError true "EOF" = SourceAction.terminate ∧
    classifyEventsError false "unexpected engine failure"
      = SourceAction.retryAfterBackoff := by
  constructor <;> rfl

/-- C3 as amended: the classification is inverted with respect to the
claim — after forwarding the error to the supervising loop's error
channel, the source sleeps 5 s and resubscribes exactly when the error
is neither `io.EOF` nor contains "connection refused", and terminates
otherwise.  (The supervising loop does not exit either way; it only
logs errors received on the channel.) -/
theorem c3_amended :
    eventsErrorBackoffSeconds = 5 ∧
    ∀ (isEOF : Bool) (msg : String),
      classifyEventsError isEOF msg = SourceAction.retryAfterBackoff ↔
        (isEOF = false ∧ strContains msg "connection refused" = false) := by
  refine ⟨rfl, ?_⟩
  intro isEOF msg
  unfold classifyEventsError
  cases isEOF <;> cases h : strContains msg "connection refused" <;> simp [h]

/-! ## C4: certificate install protocol ordering -/

/-- C4 counterexample: in `NotifyCertChange`
(src/internal/monitor/certificates/haproxy.go lines 27-148) the fourth
command `commit ssl cert` IS sent even though the third response
contains "Unknown command" (all four protocol commands are written
before any response is checked), and a clean run sends five commands,
not four. -/
theorem c4_counterexample :
    "commit ssl cert" ∈
      (notifyCertChangeAll "foo.example.com" "/certs/foo.example.com.pem"
        "listing" "ok" "Unknown command: set ssl cert" "ok" "ok").1 ∧
    (notifyCertChangeAll "foo.example.com" "/certs/foo.example.com.pem"
        "listing" "ok" "ok" "ok" "ok").1.length = 5 := by
  constructor
  · decide
  · rfl

/-- C4 as amended: `NotifyCertChange` opens a fresh connection per
command but writes the four protocol commands unconditionally and in
order; "Unknown command" in the new/set/commit responses is only
detected after all four were sent, in which case the unsupported-command
error is returned and the additional fifth command
`set ssl cert-list 1 <path>` is not sent.  In particular an
"Unknown command" response to the third command does not prevent the
fourth from being sent. -/
theorem c4_amended (domain pemPath r1 r2 r3 r4 r5 : String)
    (h : strContains r3 "Unknown command" = true) :
    notifyCertChangeAll domain pemPath r1 r2 r3 r4 r5
      = (certInstallCommands domain pemPath, NotifyResult.unsupported) ∧
    "commit ssl cert" ∈ certInstallCommands domain pemPath := by
  constructor
  · unfold notifyCertChangeAll
    simp [h]
  · simp [certInstallCommands]

/-- Witness for C4 as amended. -/
theorem c4_amended_witness :
    notifyCertChangeAll "foo.example.com" "/certs/foo.example.com.pem"
        "listing" "ok" "Unknown command: set ssl cert" "ok" "ok"
      = (certInstallCommands "foo.example.com" "/certs/foo.example.com.pem",
         NotifyResult.unsupported) ∧
    "commit ssl cert" ∈
      certInstallCommands "foo.example.com" "/certs/foo.example.com.pem" :=
  c4_amended "foo.example.com" "/certs/foo.example.com.pem"
    "listing" "ok" "Unknown command: set ssl cert" "ok" "ok" (by decide)

/-! ## C5: server-side "Error" responses -/

/-- C5 counterexample: a response containing a server-side "Error"
does NOT cause `NotifyCertChange` to fail — both the command-loop
rewrite (haproxy.go lines 304-358) and the primary rewrite (lines
27-148) test responses only for "Unknown command", so an
"Error: ..." response is accepted and the install reports success. -/
theorem c5_counterexample :
    notifyCertChangeSeq "foo.example.com" "/certs/foo.example.com.pem"
        ["ok", "Error: memory allocation failure", "ok", "ok"]
      = (certInstallCommands "foo.example.com" "/certs/foo.example.com.pem",
         NotifyResult.ok) ∧
    (notifyCertChangeAll "foo.example.com" "/certs/foo.example.com.pem"
        "ok" "Error: failed to allocate" "ok" "ok" "ok").2
      = NotifyResult.ok := by
  constructor
  · decide
  · rfl

/-- C5 as amended: responses are only tested for the substring
"Unknown command"; there is no command-failed outcome.  Whenever no
response contains "Unknown command" — regardless of any "Error"
substrings — all four commands are sent and the install reports
success. -/
theorem c5_amended (domain pemPath r1 r2 r3 r4 : String)
    (h1 : strContains r1 "Unknown command" = false)
    (h2 : strContains r2 "Unknown command" = false)
    (h3 : strContains r3 "Unknown command" = false)
    (h4 : strContains r4 "Unknown command" = false) :
    notifyCertChangeSeq domain pemPath [r1, r2, r3, r4]
      = (certInstallCommands domain pemPath, NotifyResult.ok) := by
  unfold notifyCertChangeSeq certInstallCommands
  simp [notifySeqGo, h1, h2, h3, h4]

/-- Witness for C5 as amended: the responses carry server-side
"Error" text and the install still reports success. -/
theorem c5_amended_witness :
    notifyCertChangeSeq "foo.example.com" "/certs/foo.example.com.pem"
        ["ok", "Error: failed", "Error: failed", "ok"]
      = (certInstallCommands "foo.example.com" "/certs/foo.example.com.pem",
         NotifyResult.ok) :=
  c5_amended "foo.example.com" "/certs/foo.example.com.pem"
    "ok" "Error: failed" "Error: failed" "ok"
    (by decide) (by decide) (by decide) (by decide)

/-! ## C6: renewal decision rule -/

/-- C6: on each pass of the 24-hour renewal ticker, a managed domain
with no `.crt` file triggers an obtain; one whose leaf certificate
loads and parses and satisfies `not_after - now < 30 days` triggers an
obtain again; otherwise no obtain is triggered for the domain.  A
triggered domain of the snapshot appears in the pass's obtain list. -/
theorem c6_renewal_rule :
    renewalTickerSeconds = 24 * 3600 ∧
    (∀ (now : Int) (s : CertObservation),
      checkRenewalDecision now s = true ↔
        (s.crtPresent = false ∨
          (s.keyPairOk = true ∧ s.chainNonEmpty = true ∧ s.parseOk = true ∧
           s.notAfter - now < 30 * 24 * 3600))) ∧
    (∀ (now : Int) (snapshot : List (MDomain × CertObservation)) p,
      p ∈ snapshot → checkRenewalDecision now p.2 = true →
        p.1 ∈ checkRenewals now snapshot) := by
  refine ⟨rfl, ?_, ?_⟩
  · intro now s
    obtain ⟨cp, ko, ch, po, na⟩ := s
    cases cp <;> cases ko <;> cases ch <;> cases po <;>
      simp [checkRenewalDecision, renewThresholdSeconds]
  · intro now snapshot p hp hdec
    unfold checkRenewals
    exact List.mem_map_of_mem Prod.fst (List.mem_filter.mpr ⟨hp, hdec⟩)

/-- Witness for C6: a concrete pass over two domains — one with a
certificate 10 days from expiry (obtained again), one 100 days out
(tested not to trigger via the iff). -/
theorem c6_renewal_rule_witness :
    (checkRenewalDecision 1000 ⟨true, true, true, true, 1000 + 9 * 24 * 3600⟩ = true ↔
      ((true : Bool) = false ∨
        ((true : Bool) = true ∧ (true : Bool) = true ∧ (true : Bool) = true ∧
         (1000 + 9 * 24 * 3600 : Int) - 1000 < 30 * 24 * 3600))) ∧
    (⟨"foo.example.com", []⟩ : MDomain) ∈
      checkRenewals 1000
        [(⟨"foo.example.com", []⟩, ⟨false, false, false, false, 0⟩)] :=
  ⟨c6_renewal_rule.2.1 1000 ⟨true, true, true, true, 1000 + 9 * 24 * 3600⟩,
   c6_renewal_rule.2.2 1000
     [(⟨"foo.example.com", []⟩, ⟨false, false, false, false, 0⟩)]
     (⟨"foo.example.com", []⟩, ⟨false, false, false, false, 0⟩)
     (by simp) (by rfl)⟩

/-! ## C9: RemoveDomain frame effect -/

/-- C9: for every manager state and canonical name, `RemoveDomain`
removes exactly that entry from the managed map: the entry itself is
gone, every other managed domain is unchanged, and the certificate
files on disk (`.crt`, `.key`, `.pem`) are untouched. -/
theorem c9_removeDomain_frame (st : ManagerState) (name : String) :
    (removeDomain st name).domains name = none ∧
    (∀ other, other ≠ name →
      (removeDomain st name).domains other = st.domains other) ∧
    (removeDomain st name).certFiles = st.certFiles := by
  refine ⟨?_, ?_, rfl⟩
  · simp [removeDomain]
  · intro other hother
    simp [removeDomain, hother]

/-- Witness for C9: removing `foo.example.com` from a two-domain
manager with its three certificate files on disk. -/
theorem c9_removeDomain_frame_witness :
    (removeDomain
        ⟨fun n => if n = "foo.example.com" then some ⟨"foo.example.com", ["www.foo.example.com"]⟩
          else if n = "bar.example.com" then some ⟨"bar.example.com", []⟩ else none,
         ["foo.example.com.crt", "foo.example.com.key", "foo.example.com.pem"]⟩
        "foo.example.com").domains "foo.example.com" = none ∧
    (removeDomain
        ⟨fun n => if n = "foo.example.com" then some ⟨"foo.example.com", ["www.foo.example.com"]⟩
          else if n = "bar.example.com" then some ⟨"bar.example.com", []⟩ else none,
         ["foo.example.com.crt", "foo.example.com.key", "foo.example.com.pem"]⟩
        "foo.example.com").domains "bar.example.com"
      = some ⟨"bar.example.com", []⟩ ∧
    (removeDomain
        ⟨fun n => if n = "foo.example.com" then some ⟨"foo.example.com", ["www.foo.example.com"]⟩
          else if n = "bar.example.com" then some ⟨"bar.example.com", []⟩ else none,
         ["foo.example.com.crt", "foo.example.com.key", "foo.example.com.pem"]⟩
        "foo.example.com").certFiles
      = ["foo.example.com.crt", "foo.example.com.key", "foo.example.com.pem"] :=
  ⟨(c9_removeDomain_frame _ "foo.example.com").1,
   ((c9_removeDomain_frame
       ⟨fun n => if n = "foo.example.com" then some ⟨"foo.example.com", ["www.foo.example.com"]⟩
          else if n = "bar.example.com" then some ⟨"bar.example.com", []⟩ else none,
        ["foo.example.com.crt", "foo.example.com.key", "foo.example.com.pem"]⟩
       "foo.example.com").2.1 "bar.example.com" (by decide)).trans (by rfl),
   (c9_removeDomain_frame _ "foo.example.com").2.2⟩

/-! ## C10: AddDomain is a no-op for an already-managed canonical -/

/-- C10: when the manager already holds an entry under `d.name`,
`AddDomain d` returns immediately: the managed map is unchanged (in
particular the stored aliases are NOT replaced by `d`'s aliases) and
no obtain goroutine is started. -/
theorem c10_addDomain_existing_noop (st : ManagerState) (d d0 : MDomain)
    (h : st.domains d.name = some d0) :
    addDomain st d = (st, false) := by
  unfold addDomain
  rw [h]

/-- Witness for C10: re-adding `foo.example.com` with a changed alias
list leaves the stored aliases untouched and starts no obtain. -/
theorem c10_addDomain_existing_noop_witness :
    addDomain
      ⟨fun n => if n = "foo.example.com" then some ⟨"foo.example.com", ["old.example.com"]⟩ else none,
       []⟩
      ⟨"foo.example.com", ["new.example.com"]⟩
      = (⟨fun n => if n = "foo.example.com" then some ⟨"foo.example.com", ["old.example.com"]⟩ else none,
          []⟩, false) :=
  c10_addDomain_existing_noop _ _ ⟨"foo.example.com", ["old.example.com"]⟩ (by rfl)

/-! ## C7: deployment-id validation -/

/-- C7 counterexample: `ParseContainerLabels` performs no timestamp
check on `turkis.deployment-id` — the value `not-a-timestamp`, which is
not a 14-digit `YYYYMMDDhhmmss` string, parses into a descriptor. -/
theorem c7_counterexample :
    parseContainerLabels
        [(LabelAppName, "app"), (LabelDeploymentID, "not-a-timestamp"),
         (LabelACMEEmail, "a@b.c"), ("turkis.domain.0", "foo.example.com")]
      = Except.ok ⟨"app", "not-a-timestamp", false, "/", "a@b.c", "80",
                   [⟨"foo.example.com", []⟩]⟩ ∧
    ("not-a-timestamp".data.all Char.isDigit) = false := by
  constructor
  · rfl
  · rfl

/-- C7 as amended: the only deployment-id validation in
`ParseContainerLabels` is the `IsValid` non-emptiness check — a label
map whose `turkis.deployment-id` is missing or empty never yields a
descriptor, while any non-empty value (14-digit timestamp or not) is
accepted. -/
theorem c7_amended (labels : List (String × String))
    (h : (lookupLabel labels LabelDeploymentID).getD "" = "") :
    ∀ cl, parseContainerLabels labels ≠ Except.ok cl := by
  intro cl hok
  simp only [parseContainerLabels] at hok
  split at hok
  · exact absurd hok (by simp)
  · split at hok
    · exact absurd hok (by simp)
    · rename_i hvalid
      unfold isValidLabels at hvalid
      split_ifs at hvalid

/-- Witness for C7 as amended: a map with no deployment-id label is
rejected. -/
theorem c7_amended_witness :
    parseContainerLabels [(LabelAppName, "app"), (LabelACMEEmail, "a@b.c"),
        ("turkis.domain.0", "foo.example.com")]
      ≠ Except.ok ⟨"app", "", false, "/", "a@b.c", "80",
                   [⟨"foo.example.com", []⟩]⟩ :=
  c7_amended [(LabelAppName, "app"), (LabelACMEEmail, "a@b.c"),
      ("turkis.domain.0", "foo.example.com")] (by rfl)
    ⟨"app", "", false, "/", "a@b.c", "80", [⟨"foo.example.com", []⟩]⟩

/-! ## C2: label round trip -/

/-- C2 counterexample: `ToLabels` produces a Go map, and
`ParseContainerLabels` collects a domain's aliases in map-iteration
order, which is unspecified.  The list below is a permutation of
`toLabels d` for a valid descriptor `d` with two aliases — a legal
iteration order of the same map in which `alias.1` is visited before
`alias.0` — and parsing it returns the aliases transposed, so
`parse(encode(d)) = d` fails for this iteration order. -/
theorem c2_counterexample :
    List.Perm
      [(LabelAppName, "app"), (LabelDeploymentID, "20240101000000"),
       (LabelIgnore, "false"), (LabelHealthCheckPath, "/"),
       (LabelPort, "80"), (LabelACMEEmail, "a@b.c"),
       ("turkis.domain.0", "foo.example.com"),
       ("turkis.domain.0.alias.1", "b.example.com"),
       ("turkis.domain.0.alias.0", "a.example.com")]
      (toLabels ⟨"app", "20240101000000", false, "/", "a@b.c", "80",
                 [⟨"foo.example.com", ["a.example.com", "b.example.com"]⟩]⟩) ∧
    isValidLabels ⟨"app", "20240101000000", false, "/", "a@b.c", "80",
                   [⟨"foo.example.com", ["a.example.com", "b.example.com"]⟩]⟩
      = none ∧
    parseContainerLabels
      [(LabelAppName, "app"), (LabelDeploymentID, "20240101000000"),
       (LabelIgnore, "false"), (LabelHealthCheckPath, "/"),
       (LabelPort, "80"), (LabelACMEEmail, "a@b.c"),
       ("turkis.domain.0", "foo.example.com"),
       ("turkis.domain.0.alias.1", "b.example.com"),
       ("turkis.domain.0.alias.0", "a.example.com")]
      = Except.ok ⟨"app", "20240101000000", false, "/", "a@b.c", "80",
                   [⟨"foo.example.com", ["b.example.com", "a.example.com"]⟩]⟩ ∧
    (⟨"app", "20240101000000", false, "/", "a@b.c", "80",
       [⟨"foo.example.com", ["b.example.com", "a.example.com"]⟩]⟩ : ContainerLabels)
      ≠ ⟨"app", "20240101000000", false, "/", "a@b.c", "80",
         [⟨"foo.example.com", ["a.example.com", "b.example.com"]⟩]⟩ := by
  refine ⟨by decide, rfl, by rfl, by decide⟩

/-- C2 as amended: `parse(encode(d)) == d` holds for every valid
descriptor (non-empty app name, deployment id, email valid per
`IsValid`, non-empty port, at least one domain) when the label map is
iterated in the encoding order — in particular whenever each domain's
alias keys are visited in ascending alias-index order.  Scalar fields,
domain order and alias values always round-trip; only the per-domain
alias order depends on the map iteration order. -/
theorem c2_amended (d : ContainerLabels) (h : isValidLabels d = none) :
    parseContainerLabels (toLabels d) = Except.ok d := by
  obtain ⟨a, dep, ig, hp, em, po, doms⟩ := d
  have hdm : List.foldl (fun m kv => processDomainLabel m kv.1 kv.2) []
      (toLabels ⟨a, dep, ig, hp, em, po, doms⟩) = List.enumFrom 0 doms := by
    rw [show toLabels ⟨a, dep, ig, hp, em, po, doms⟩
        = [(LabelAppName, a), (LabelDeploymentID, dep), (LabelIgnore, goFormatBool ig),
           (LabelHealthCheckPath, hp), (LabelPort, po), (LabelACMEEmail, em)]
          ++ (List.enumFrom 0 doms).flatMap (fun p =>
              (labelDomainCanonical p.1, p.2.canonical)
                :: p.2.aliases.enum.map (fun q => (labelDomainAlias p.1 q.1, q.2)))
        from rfl]
    rw [List.foldl_append]
    rw [show List.foldl (fun m kv => processDomainLabel m kv.1 kv.2)
        ([] : List (Nat × GoDomain))
        [(LabelAppName, a), (LabelDeploymentID, dep), (LabelIgnore, goFormatBool ig),
         (LabelHealthCheckPath, hp), (LabelPort, po), (LabelACMEEmail, em)]
        = [] from rfl]
    exact domainBlocks_fold doms 0 [] (by intro p hp2; cases hp2)
  have hA : lookupLabel (toLabels ⟨a, dep, ig, hp, em, po, doms⟩) LabelAppName
      = some a := rfl
  have hD : lookupLabel (toLabels ⟨a, dep, ig, hp, em, po, doms⟩) LabelDeploymentID
      = some dep := rfl
  have hI : lookupLabel (toLabels ⟨a, dep, ig, hp, em, po, doms⟩) LabelIgnore
      = some (goFormatBool ig) := rfl
  have hH : lookupLabel (toLabels ⟨a, dep, ig, hp, em, po, doms⟩) LabelHealthCheckPath
      = some hp := rfl
  have hE : lookupLabel (toLabels ⟨a, dep, ig, hp, em, po, doms⟩) LabelACMEEmail
      = some em := rfl
  have hP : lookupLabel (toLabels ⟨a, dep, ig, hp, em, po, doms⟩) LabelPort
      = some po := rfl
  have hpb : goParseBool (goFormatBool ig) = some ig := by cases ig <;> rfl
  unfold parseContainerLabels
  simp only [hA, hD, hI, hH, hE, hP, hpb, hdm, collect_enumFrom, Option.getD_some, h]

/-- Witness for C2 as amended: a valid two-alias descriptor
round-trips through `toLabels` in encoding order. -/
theorem c2_amended_witness :
    parseContainerLabels (toLabels ⟨"app", "20240101000000", false, "/", "a@b.c", "80",
        [⟨"foo.example.com", ["a.example.com", "b.example.com"]⟩]⟩)
      = Except.ok ⟨"app", "20240101000000", false, "/", "a@b.c", "80",
        [⟨"foo.example.com", ["a.example.com", "b.example.com"]⟩]⟩ :=
  c2_amended ⟨"app", "20240101000000", false, "/", "a@b.c", "80",
      [⟨"foo.example.com", ["a.example.com", "b.example.com"]⟩]⟩ (by rfl)

/-! ## C8: domain exclusivity -/

set_option maxRecDepth 10000 in
/-- C8 counterexample: neither `CreateConfig` nor `GetAllDomains`
performs any domain-exclusivity check.  With two deployments both
claiming canonical `shared.example.com`, the rendered configuration
contains the ACLs and `use_backend` rules of BOTH apps for the same
host (nothing is rejected or skipped), and in the managed domain map
the duplicated canonical's aliases are silently overwritten by the
container iterated last. -/
theorem c8_counterexample :
    strContains
      (createConfig
        [⟨⟨"app1", "20240101000000", false, "/", "a@b.c", "80",
           [⟨"shared.example.com", []⟩]⟩, [⟨"10.0.0.2", "80"⟩]⟩,
         ⟨⟨"app2", "20240102000000", false, "/", "a@b.c", "80",
           [⟨"shared.example.com", []⟩]⟩, [⟨"10.0.0.3", "80"⟩]⟩])
      "\tuse_backend app1 if app1_shared_example_com_canonical\n" = true ∧
    strContains
      (createConfig
        [⟨⟨"app1", "20240101000000", false, "/", "a@b.c", "80",
           [⟨"shared.example.com", []⟩]⟩, [⟨"10.0.0.2", "80"⟩]⟩,
         ⟨⟨"app2", "20240102000000", false, "/", "a@b.c", "80",
           [⟨"shared.example.com", []⟩]⟩, [⟨"10.0.0.3", "80"⟩]⟩])
      "\tuse_backend app2 if app2_shared_example_com_canonical\n" = true ∧
    strContains
      (createConfig
        [⟨⟨"app1", "20240101000000", false, "/", "a@b.c", "80",
           [⟨"shared.example.com", []⟩]⟩, [⟨"10.0.0.2", "80"⟩]⟩,
         ⟨⟨"app2", "20240102000000", false, "/", "a@b.c", "80",
           [⟨"shared.example.com", []⟩]⟩, [⟨"10.0.0.3", "80"⟩]⟩])
      "\tacl app2_shared_example_com_canonical hdr(host) -i shared.example.com\n"
      = true ∧
    getAllDomains
      [[⟨"shared.example.com", ["alias-of-app1.example.com"]⟩],
       [⟨"shared.example.com", ["alias-of-app2.example.com"]⟩]]
      "shared.example.com" = some ["alias-of-app2.example.com"] := by
  refine ⟨?_, ?_, ?_, ?_⟩ <;> rfl

/-- C8 as amended: reconciliation performs no conflict detection.  For
any two deployments sharing a canonical host `c`, `CreateConfig`
renders the `use_backend` rules of both apps and the second app's ACL
for the shared host (the conflicting deployment is not rejected, its
rules are emitted alongside the owner's and HAProxy rule order decides),
and `GetAllDomains` maps a duplicated canonical to the aliases of
whichever container its map iteration visits last, displacing the
other's. -/
theorem c8_amended (app1 app2 c e1 e2 id1 id2 ip1 ip2 : String) (hc : ¬ c = "") :
    (strContains
      (createConfig
        [⟨⟨app1, id1, false, "/", e1, "80", [⟨c, []⟩]⟩, [⟨ip1, "80"⟩]⟩,
         ⟨⟨app2, id2, false, "/", e2, "80", [⟨c, []⟩]⟩, [⟨ip2, "80"⟩]⟩])
      ("\tuse_backend " ++ app1 ++ " if "
        ++ (app1 ++ "_" ++ sanitizeHost c ++ "_canonical") ++ "\n") = true) ∧
    (strContains
      (createConfig
        [⟨⟨app1, id1, false, "/", e1, "80", [⟨c, []⟩]⟩, [⟨ip1, "80"⟩]⟩,
         ⟨⟨app2, id2, false, "/", e2, "80", [⟨c, []⟩]⟩, [⟨ip2, "80"⟩]⟩])
      ("\tuse_backend " ++ app2 ++ " if "
        ++ (app2 ++ "_" ++ sanitizeHost c ++ "_canonical") ++ "\n") = true) ∧
    (strContains
      (createConfig
        [⟨⟨app1, id1, false, "/", e1, "80", [⟨c, []⟩]⟩, [⟨ip1, "80"⟩]⟩,
         ⟨⟨app2, id2, false, "/", e2, "80", [⟨c, []⟩]⟩, [⟨ip2, "80"⟩]⟩])
      ("\tacl " ++ (app2 ++ "_" ++ sanitizeHost c ++ "_canonical")
        ++ " hdr(host) -i " ++ c ++ "\n") = true) ∧
    (∀ as1 as2 : List String,
      getAllDomains [[⟨c, as1⟩], [⟨c, as2⟩]] c = some as2) := by
  have hstep : ∀ (acc : String × String) (app idv ev ip : String),
      configDeploymentStep acc
          ⟨⟨app, idv, false, "/", ev, "80", [⟨c, []⟩]⟩, [⟨ip, "80"⟩]⟩
        = (acc.1 ++ "\tacl " ++ (app ++ "_" ++ sanitizeHost c ++ "_canonical")
             ++ " hdr(host) -i " ++ c ++ "\n"
             ++ "\tuse_backend " ++ app ++ " if "
             ++ (app ++ "_" ++ sanitizeHost c ++ "_canonical") ++ "\n",
           acc.2 ++ "\tacl " ++ (app ++ "_" ++ sanitizeHost c ++ "_canonical")
             ++ " hdr(host) -i " ++ c ++ "\n"
             ++ "\thttp-request redirect code 301 location https://" ++ c
             ++ "%[req.uri] if "
             ++ (app ++ "_" ++ sanitizeHost c ++ "_canonical") ++ "\n") := by
    intro acc app idv ev ip
    simp [configDeploymentStep, configDomainStep, hc, goJoin, String.append_assoc]
  refine ⟨?_, ?_, ?_, ?_⟩
  · simp only [createConfig, List.foldl, hstep]
    iterate 20 apply strContains_append_left
    exact strContains_congr _ _ _ (by simp only [String.append_assoc])
      (strContains_suffix_self
        (httpsFrontendHeader ++ "\tacl "
          ++ (app1 ++ "_" ++ sanitizeHost c ++ "_canonical")
          ++ " hdr(host) -i " ++ c ++ "\n")
        ("\tuse_backend " ++ app1 ++ " if "
          ++ (app1 ++ "_" ++ sanitizeHost c ++ "_canonical") ++ "\n"))
  · simp only [createConfig, List.foldl, hstep]
    iterate 10 apply strContains_append_left
    exact strContains_congr _ _ _ (by simp only [String.append_assoc])
      (strContains_suffix_self
        (httpsFrontendHeader ++ "\tacl "
          ++ (app1 ++ "_" ++ sanitizeHost c ++ "_canonical")
          ++ " hdr(host) -i " ++ c ++ "\n"
          ++ "\tuse_backend " ++ app1 ++ " if "
          ++ (app1 ++ "_" ++ sanitizeHost c ++ "_canonical") ++ "\n"
          ++ "\tacl " ++ (app2 ++ "_" ++ sanitizeHost c ++ "_canonical")
          ++ " hdr(host) -i " ++ c ++ "\n")
        ("\tuse_backend " ++ app2 ++ " if "
          ++ (app2 ++ "_" ++ sanitizeHost c ++ "_canonical") ++ "\n"))
  · simp only [createConfig, List.foldl, hstep]
    iterate 15 apply strContains_append_left
    exact strContains_congr _ _ _ (by simp only [String.append_assoc])
      (strContains_suffix_self
        (httpsFrontendHeader ++ "\tacl "
          ++ (app1 ++ "_" ++ sanitizeHost c ++ "_canonical")
          ++ " hdr(host) -i " ++ c ++ "\n"
          ++ "\tuse_backend " ++ app1 ++ " if "
          ++ (app1 ++ "_" ++ sanitizeHost c ++ "_canonical") ++ "\n")
        ("\tacl " ++ (app2 ++ "_" ++ sanitizeHost c ++ "_canonical")
          ++ " hdr(host) -i " ++ c ++ "\n"))
  · intro as1 as2
    simp [getAllDomains]

/-- Witness for C8 as amended, at two concrete colliding deployments. -/
theorem c8_amended_witness :
    strContains
      (createConfig
        [⟨⟨"app1", "20240101000000", false, "/", "a@b.c", "80",
           [⟨"shared.example.com", []⟩]⟩, [⟨"10.0.0.2", "80"⟩]⟩,
         ⟨⟨"app2", "20240102000000", false, "/", "a@b.c", "80",
           [⟨"shared.example.com", []⟩]⟩, [⟨"10.0.0.3", "80"⟩]⟩])
      ("\tuse_backend " ++ "app2" ++ " if "
        ++ ("app2" ++ "_" ++ sanitizeHost "shared.example.com" ++ "_canonical")
        ++ "\n") = true ∧
    getAllDomains
      [[⟨"shared.example.com", ["x.example.com"]⟩],
       [⟨"shared.example.com", ["y.example.com"]⟩]]
      "shared.example.com" = some ["y.example.com"] :=
  ⟨(c8_amended "app1" "app2" "shared.example.com" "a@b.c" "a@b.c"
      "20240101000000" "20240102000000" "10.0.0.2" "10.0.0.3" (by decide)).2.1,
   (c8_amended "app1" "app2" "shared.example.com" "a@b.c" "a@b.c"
      "20240101000000" "20240102000000" "10.0.0.2" "10.0.0.3" (by decide)).2.2.2
     ["x.example.com"] ["y.example.com"]⟩

end Turkis
